import Mathlib

/-!
Verification of the voice-conversation subsystem of the ai-journal-mvp
repository (src/components/ConversationalView.tsx) against its
natural-language specification.

Conventions of the shallow embedding:
- JavaScript binary strings (each character code in 0..255) are modelled as
  `List Nat`; base64 text is modelled as `List Char`.
- `String.fromCharCode` and `String.prototype.charCodeAt` are the identity
  on codes 0..255, so `encode` is `btoa` precomposed with that identity and
  `decode` is `atob` postcomposed with it.
- Audio clock times are modelled as rationals (the source reads
  `AudioContext.currentTime`, a non-negative real; every operation the code
  performs on it is order/plus/max, which ℚ captures exactly).
-/

namespace AIJournal

/-! ## Audio codec: base64 transport encoding (ConversationalView.tsx lines 10-27) -/

/-- Alphabet used by the base64 transport encoding (RFC 4648, as implemented
by the browser built-ins `btoa` / `atob` that the source calls). -/
def b64Alphabet : List Char :=
  ['A', 'B', 'C', 'D', 'E', 'F', 'G', 'H', 'I', 'J', 'K', 'L', 'M',
   'N', 'O', 'P', 'Q', 'R', 'S', 'T', 'U', 'V', 'W', 'X', 'Y', 'Z',
   'a', 'b', 'c', 'd', 'e', 'f', 'g', 'h', 'i', 'j', 'k', 'l', 'm',
   'n', 'o', 'p', 'q', 'r', 's', 't', 'u', 'v', 'w', 'x', 'y', 'z',
   '0', '1', '2', '3', '4', '5', '6', '7', '8', '9', '+', '/']

/-- Character of a six-bit group value. -/
def b64Char (n : Nat) : Char := b64Alphabet.getD n 'A'

/-- Six-bit group value of a base64 character (inverse lookup). -/
def b64Index (c : Char) : Nat := b64Alphabet.indexOf c

/-- Model of the browser built-in `btoa` on a binary string whose character
codes are the bytes of the buffer: groups of three bytes become four base64
characters; a trailing group of one or two bytes is padded with `=`. -/
def btoa : List Nat → List Char
  | [] => []
  | [b0] =>
      [b64Char (b0 / 4), b64Char (b0 % 4 * 16), '=', '=']
  | [b0, b1] =>
      [b64Char (b0 / 4), b64Char (b0 % 4 * 16 + b1 / 16),
       b64Char (b1 % 16 * 4), '=']
  | b0 :: b1 :: b2 :: rest =>
      b64Char (b0 / 4) :: b64Char (b0 % 4 * 16 + b1 / 16) ::
      b64Char (b1 % 16 * 4 + b2 / 64) :: b64Char (b2 % 64) :: btoa rest

/-- Model of the browser built-in `atob`: four base64 characters become
three bytes; `=` padding at the end marks a final group of one or two
bytes. -/
def atob : List Char → List Nat
  | c1 :: c2 :: c3 :: c4 :: rest =>
      if c3 = '=' then
        [b64Index c1 * 4 + b64Index c2 / 16]
      else if c4 = '=' then
        [b64Index c1 * 4 + b64Index c2 / 16,
         b64Index c2 % 16 * 16 + b64Index c3 / 4]
      else
        (b64Index c1 * 4 + b64Index c2 / 16) ::
        (b64Index c2 % 16 * 16 + b64Index c3 / 4) ::
        (b64Index c3 % 4 * 64 + b64Index c4) :: atob rest
  | _ => []

/-- Source function `encode` (lines 10-17): builds the binary string whose
character code at i is `bytes[i]` (the identity on byte values), then applies
`btoa`. -/
def encode (bytes : List Nat) : List Char := btoa bytes

/-- Source function `decode` (lines 19-27): applies `atob` and reads the
character codes back into a byte buffer. -/
def decode (base64 : List Char) : List Nat := atob base64

theorem b64Index_b64Char_fin : ∀ n : Fin 64, b64Index (b64Char n.val) = n.val := by
  decide

theorem b64Char_ne_eq_fin : ∀ n : Fin 64, b64Char n.val ≠ '=' := by
  decide

theorem b64Index_b64Char {n : Nat} (h : n < 64) : b64Index (b64Char n) = n :=
  b64Index_b64Char_fin ⟨n, h⟩

theorem b64Char_ne_eq {n : Nat} (h : n < 64) : b64Char n ≠ '=' :=
  b64Char_ne_eq_fin ⟨n, h⟩

theorem atob_pad2 (c1 c2 : Char) :
    atob [c1, c2, '=', '='] = [b64Index c1 * 4 + b64Index c2 / 16] := by
  simp [atob]

theorem atob_pad1 (c1 c2 c3 : Char) (h3 : c3 ≠ '=') :
    atob [c1, c2, c3, '='] =
      [b64Index c1 * 4 + b64Index c2 / 16,
       b64Index c2 % 16 * 16 + b64Index c3 / 4] := by
  simp [atob, h3]

theorem atob_group (c1 c2 c3 c4 : Char) (rest : List Char)
    (h3 : c3 ≠ '=') (h4 : c4 ≠ '=') :
    atob (c1 :: c2 :: c3 :: c4 :: rest) =
      (b64Index c1 * 4 + b64Index c2 / 16) ::
      (b64Index c2 % 16 * 16 + b64Index c3 / 4) ::
      (b64Index c3 % 4 * 64 + b64Index c4) :: atob rest := by
  simp [atob, h3, h4]

theorem atob_btoa : ∀ b : List Nat, (∀ x ∈ b, x < 256) → atob (btoa b) = b
  | [], _ => rfl
  | [b0], h => by
      have hb0 : b0 < 256 := h b0 (by simp)
      rw [show btoa [b0] = [b64Char (b0 / 4), b64Char (b0 % 4 * 16), '=', '='] from rfl]
      rw [atob_pad2, b64Index_b64Char (by omega), b64Index_b64Char (by omega)]
      simp only [List.cons.injEq, and_true]
      omega
  | [b0, b1], h => by
      have hb0 : b0 < 256 := h b0 (by simp)
      have hb1 : b1 < 256 := h b1 (by simp)
      rw [show btoa [b0, b1] = [b64Char (b0 / 4), b64Char (b0 % 4 * 16 + b1 / 16),
        b64Char (b1 % 16 * 4), '='] from rfl]
      rw [atob_pad1 _ _ _ (b64Char_ne_eq (by omega)),
        b64Index_b64Char (by omega), b64Index_b64Char (by omega),
        b64Index_b64Char (by omega)]
      simp only [List.cons.injEq, and_true]
      omega
  | b0 :: b1 :: b2 :: rest, h => by
      have hb0 : b0 < 256 := h b0 (by simp)
      have hb1 : b1 < 256 := h b1 (by simp)
      have hb2 : b2 < 256 := h b2 (by simp)
      have ih : atob (btoa rest) = rest :=
        atob_btoa rest (fun x hx => h x (by simp [hx]))
      rw [show btoa (b0 :: b1 :: b2 :: rest) =
        b64Char (b0 / 4) :: b64Char (b0 % 4 * 16 + b1 / 16) ::
        b64Char (b1 % 16 * 4 + b2 / 64) :: b64Char (b2 % 64) :: btoa rest from rfl]
      rw [atob_group _ _ _ _ _ (b64Char_ne_eq (by omega)) (b64Char_ne_eq (by omega)),
        b64Index_b64Char (by omega), b64Index_b64Char (by omega),
        b64Index_b64Char (by omega), b64Index_b64Char (by omega), ih]
      simp only [List.cons.injEq, and_true]
      omega

/-- C4: codec round-trip. For every PCM16 byte buffer b (all entries byte
values), decoding the transport encoding of b gives back b, where `encode`
packs the bytes into a binary string and applies the base64 binary-to-text
transport encoding (`btoa`) and `decode` is its inverse (`atob`). -/
theorem codec_round_trip (b : List Nat) (h : ∀ x ∈ b, x < 256) :
    decode (encode b) = b :=
  atob_btoa b h

/-- Witness for `codec_round_trip` at the concrete buffer [1, 2, 3, 255, 0]. -/
theorem codec_round_trip_witness :
    (∀ x ∈ [1, 2, 3, 255, 0], x < 256) ∧ decode (encode [1, 2, 3, 255, 0]) = [1, 2, 3, 255, 0] :=
  ⟨by decide, codec_round_trip [1, 2, 3, 255, 0] (by decide)⟩

/-! ## Playback scheduler (ConversationalView.tsx lines 239-262)

The onmessage audio branch performs, per chunk:
`nextStartTimeRef.current = Math.max(nextStartTimeRef.current, outCtx.currentTime)`;
`source.start(nextStartTimeRef.current)`;
`nextStartTimeRef.current += audioBuffer.duration`.
A `Chunk` carries its arrival index `id`, the output-clock reading `now`
observed at its scheduling step, and its decoded duration `dur`. -/

structure Chunk where
  id : Nat
  now : ℚ
  dur : ℚ
  deriving DecidableEq

/-- Sequential scheduling of a list of chunks, in list order, starting from
the given cursor. Produces the scheduled (id, start, duration) triples. -/
def scheduleAll (cursor : ℚ) : List Chunk → List (Nat × ℚ × ℚ)
  | [] => []
  | c :: cs =>
      (c.id, max cursor c.now, c.dur) ::
      scheduleAll (max cursor c.now + c.dur) cs

/-- Pairwise non-overlap of consecutive scheduled chunks: each next start is
at or after the previous start plus the previous duration. -/
def NoOverlap : List (Nat × ℚ × ℚ) → Prop
  | (_, s1, d1) :: (i2, s2, d2) :: rest =>
      s1 + d1 ≤ s2 ∧ NoOverlap ((i2, s2, d2) :: rest)
  | _ => True

/-- C1: the Playback Scheduler never schedules two chunks with overlapping
time ranges. For every initial cursor and every sequence of chunks, each
consecutively scheduled pair satisfies start of the next being at or after
start plus duration of the previous, because each step sets
cursor = max(cursor, outputClock.now()), starts the chunk at cursor, and
advances cursor by the duration of the chunk. -/
theorem scheduler_no_overlap : ∀ (cursor : ℚ) (cs : List Chunk),
    NoOverlap (scheduleAll cursor cs)
  | _, [] => trivial
  | _, [_] => trivial
  | cursor, c :: c2 :: cs => by
      have ih := scheduler_no_overlap (max cursor c.now + c.dur) (c2 :: cs)
      simp only [scheduleAll, NoOverlap] at ih ⊢
      exact ⟨le_max_left _ _, ih⟩

/-! ## Event-loop model for arrival-order scheduling (C3)

The onmessage handler is an async callback: it computes
`decodeAudioData` (whose body contains no internal suspension point, so its
promise is already resolved when awaited) and the single `await` defers the
scheduling step to the microtask queue. The JavaScript event loop runs each
message task to completion and drains the FIFO microtask queue before the
next task; if a transport layer delivers several messages inside one task,
their post-await continuations are enqueued in arrival order. `runLoop`
models this: each batch of arrived messages first enqueues its continuations
in arrival order, then the queue is drained. -/

structure LoopState where
  out : List (Nat × ℚ × ℚ)
  cursor : ℚ

/-- Execution of one post-await continuation: the scheduling step of one
chunk (the read-modify-write of the shared cursor plus the start call). -/
def execMicro (st : LoopState) (c : Chunk) : LoopState :=
  { out := st.out ++ [(c.id, max st.cursor c.now, c.dur)],
    cursor := max st.cursor c.now + c.dur }

/-- One event-loop task: the handlers of the batch run to their await point,
appending their continuations to the pending microtask queue in arrival
order; then the microtask queue is drained in FIFO order. -/
def eventLoopStep (s : LoopState × List Chunk) (batch : List Chunk) :
    LoopState × List Chunk :=
  ((s.2 ++ batch).foldl execMicro s.1, [])

/-- Full event-loop run over the batches of arriving audio chunks. -/
def runLoop (cursor : ℚ) (batches : List (List Chunk)) : LoopState :=
  (batches.foldl eventLoopStep ({ out := [], cursor := cursor }, [])).1

/-- Cursor value after sequentially scheduling a list of chunks. -/
def endCursor : ℚ → List Chunk → ℚ
  | cur, [] => cur
  | cur, c :: cs => endCursor (max cur c.now + c.dur) cs

theorem foldl_execMicro : ∀ (ms : List Chunk) (st : LoopState),
    ms.foldl execMicro st =
      { out := st.out ++ scheduleAll st.cursor ms,
        cursor := endCursor st.cursor ms }
  | [], st => by cases st; simp [scheduleAll, endCursor]
  | m :: ms, st => by
      rw [List.foldl_cons, foldl_execMicro ms (execMicro st m)]
      cases st
      simp [execMicro, scheduleAll, endCursor]

theorem endCursor_append (ms ns : List Chunk) (cur : ℚ) :
    endCursor cur (ms ++ ns) = endCursor (endCursor cur ms) ns := by
  induction ms generalizing cur with
  | nil => simp [endCursor]
  | cons m ms ih => simp [endCursor, ih]

theorem scheduleAll_append (ms ns : List Chunk) (cur : ℚ) :
    scheduleAll cur (ms ++ ns) =
      scheduleAll cur ms ++ scheduleAll (endCursor cur ms) ns := by
  induction ms generalizing cur with
  | nil => simp [scheduleAll, endCursor]
  | cons m ms ih => simp [scheduleAll, endCursor, ih]

theorem runLoop_aux : ∀ (batches : List (List Chunk)) (st : LoopState),
    (batches.foldl eventLoopStep (st, [])).1 =
      { out := st.out ++ scheduleAll st.cursor batches.flatten,
        cursor := endCursor st.cursor batches.flatten }
  | [], st => by cases st; simp [scheduleAll, endCursor]
  | b :: bs, st => by
      rw [List.foldl_cons]
      show (bs.foldl eventLoopStep ((([] ++ b).foldl execMicro st), [])).1 = _
      rw [List.nil_append, foldl_execMicro,
        runLoop_aux bs { out := st.out ++ scheduleAll st.cursor b,
                         cursor := endCursor st.cursor b }]
      simp [List.flatten_cons, scheduleAll_append, endCursor_append, List.append_assoc]

theorem scheduleAll_ids (cur : ℚ) (cs : List Chunk) :
    (scheduleAll cur cs).map (fun e => e.1) = cs.map Chunk.id := by
  induction cs generalizing cur with
  | nil => simp [scheduleAll]
  | cons c cs ih => simp [scheduleAll, ih]

/-- C3: arrival-order scheduling. Under the event-loop semantics, the
scheduled output of any run equals the sequential arrival-order schedule of
all chunks (so the cursor read-modify-write is serialized per chunk in
arrival order), and in particular the ids of the scheduled chunks appear
exactly in arrival order, independent of how arrivals are grouped into
tasks. -/
theorem arrival_order_scheduling (cursor : ℚ) (batches : List (List Chunk)) :
    (runLoop cursor batches).out = scheduleAll cursor batches.flatten ∧
    ((runLoop cursor batches).out).map (fun e => e.1) =
      (batches.flatten).map Chunk.id := by
  have h : runLoop cursor batches =
      { out := [] ++ scheduleAll cursor batches.flatten,
        cursor := endCursor cursor batches.flatten } :=
    runLoop_aux batches { out := [], cursor := cursor }
  constructor
  · rw [h]
    simp
  · rw [h]
    simp [scheduleAll_ids]

/-! ## Transcript reconciler (ConversationalView.tsx lines 213-237)

A server message may carry an output-transcription fragment, an
input-transcription fragment, and a turnComplete flag; the handler appends
the output fragment, then the input fragment, then (when turnComplete) trims
both accumulators, pushes the non-empty ones as turns in the order user then
aura, and resets both accumulators. The transcript entry ids built from
Date.now() are not modelled; a turn is (speaker, text). -/

inductive Speaker
  | user
  | aura
  deriving DecidableEq

structure RecState where
  inputAcc : String
  outputAcc : String
  turns : List (Speaker × String)
  deriving DecidableEq

structure ServerMessage where
  outputTranscription : Option String
  inputTranscription : Option String
  turnComplete : Bool
  deriving DecidableEq

/-- Model of the JavaScript String.prototype.trim call in the source:
drops whitespace characters from both ends. Defined on the character list
so that it is fully executable (the library String.trim is defined through
well-founded recursion on substrings and does not reduce). -/
def jsTrim (s : String) : String :=
  String.mk (((s.data.dropWhile Char.isWhitespace).reverse.dropWhile
    Char.isWhitespace).reverse)

/-- One step of the onmessage transcript handling (lines 214-237). -/
def stepMessage (st : RecState) (m : ServerMessage) : RecState :=
  let st1 :=
    match m.outputTranscription with
    | some t => { st with outputAcc := st.outputAcc ++ t }
    | none => st
  let st2 :=
    match m.inputTranscription with
    | some t => { st1 with inputAcc := st1.inputAcc ++ t }
    | none => st1
  if m.turnComplete then
    let userInput := jsTrim st2.inputAcc
    let auraResponse := jsTrim st2.outputAcc
    let withUser :=
      if userInput ≠ "" then st2.turns ++ [(Speaker.user, userInput)] else st2.turns
    let withBoth :=
      if auraResponse ≠ "" then withUser ++ [(Speaker.aura, auraResponse)] else withUser
    { inputAcc := "", outputAcc := "", turns := withBoth }
  else st2

/-- Message carrying one user (input) transcription fragment. -/
def userFrag (t : String) : ServerMessage := ⟨none, some t, false⟩

/-- Message carrying one aura (output) transcription fragment. -/
def auraFrag (t : String) : ServerMessage := ⟨some t, none, false⟩

/-- Message carrying only the turnComplete signal. -/
def turnCompleteMsg : ServerMessage := ⟨none, none, true⟩

def runMessages (st : RecState) (ms : List ServerMessage) : RecState :=
  ms.foldl stepMessage st

/-- C2: the Transcript Reconciler appends fragments per speaker by string
concatenation; at turnComplete it commits the accumulators that are
non-empty (after the trim the code applies) as turns in the fixed order
user then aura and resets both accumulators; the fragment sequence
user "Hi ", user "there", aura "Hello" followed by turnComplete commits
exactly the two turns (user, "Hi there") then (aura, "Hello"); and a
turnComplete arriving with both accumulators empty commits zero turns. -/
theorem transcript_turn_commit (st : RecState) (t : String)
    (ts : List (Speaker × String)) :
    (stepMessage st (userFrag t)).inputAcc = st.inputAcc ++ t ∧
    (stepMessage st (userFrag t)).outputAcc = st.outputAcc ∧
    (stepMessage st (userFrag t)).turns = st.turns ∧
    (stepMessage st (auraFrag t)).outputAcc = st.outputAcc ++ t ∧
    (stepMessage st (auraFrag t)).inputAcc = st.inputAcc ∧
    (stepMessage st (auraFrag t)).turns = st.turns ∧
    stepMessage st turnCompleteMsg =
      { inputAcc := "", outputAcc := "",
        turns := st.turns
          ++ (if jsTrim st.inputAcc ≠ "" then [(Speaker.user, jsTrim st.inputAcc)] else [])
          ++ (if jsTrim st.outputAcc ≠ "" then [(Speaker.aura, jsTrim st.outputAcc)] else []) } ∧
    (runMessages ⟨"", "", []⟩
        [userFrag "Hi ", userFrag "there", auraFrag "Hello", turnCompleteMsg]).turns
      = [(Speaker.user, "Hi there"), (Speaker.aura, "Hello")] ∧
    stepMessage ⟨"", "", ts⟩ turnCompleteMsg = ⟨"", "", ts⟩ := by
  refine ⟨rfl, rfl, rfl, rfl, rfl, rfl, ?_, by decide, ?_⟩
  · show ({ inputAcc := "", outputAcc := "", turns := _ } : RecState) = _
    simp only [stepMessage, turnCompleteMsg]
    split_ifs <;> simp [List.append_assoc]
  · have hz : jsTrim "" = "" := rfl
    simp [stepMessage, turnCompleteMsg, hz]

/-! ## Committed turn text is the trimmed fragment concatenation (C10) -/

/-- Fragment list rendered as the server messages that deliver it. -/
def fragsOf (fs : List (Speaker × String)) : List ServerMessage :=
  fs.map fun f =>
    match f.1 with
    | Speaker.user => userFrag f.2
    | Speaker.aura => auraFrag f.2

/-- Concatenation of the user fragments of a fragment list, in order. -/
def userConcat : List (Speaker × String) → String
  | [] => ""
  | (Speaker.user, t) :: fs => t ++ userConcat fs
  | (Speaker.aura, _) :: fs => userConcat fs

/-- Concatenation of the aura fragments of a fragment list, in order. -/
def auraConcat : List (Speaker × String) → String
  | [] => ""
  | (Speaker.user, _) :: fs => auraConcat fs
  | (Speaker.aura, t) :: fs => t ++ auraConcat fs

theorem empty_string_append (s : String) : "" ++ s = s := by
  cases s
  rfl

theorem runMessages_fragsOf (fs : List (Speaker × String)) :
    ∀ (u a : String) (ts : List (Speaker × String)),
      runMessages ⟨u, a, ts⟩ (fragsOf fs) =
        ⟨u ++ userConcat fs, a ++ auraConcat fs, ts⟩ := by
  induction fs with
  | nil =>
      intro u a ts
      simp [runMessages, fragsOf, userConcat, auraConcat]
  | cons f fs ih =>
      intro u a ts
      obtain ⟨sp, t⟩ := f
      cases sp
      · simp only [fragsOf, List.map_cons, runMessages, List.foldl_cons]
        rw [show stepMessage ⟨u, a, ts⟩ (userFrag t) = ⟨u ++ t, a, ts⟩ from rfl]
        have h := ih (u ++ t) a ts
        simp only [runMessages, fragsOf] at h
        rw [h]
        simp [userConcat, auraConcat, String.append_assoc]
      · simp only [fragsOf, List.map_cons, runMessages, List.foldl_cons]
        rw [show stepMessage ⟨u, a, ts⟩ (auraFrag t) = ⟨u, a ++ t, ts⟩ from rfl]
        have h := ih u (a ++ t) ts
        simp only [runMessages, fragsOf] at h
        rw [h]
        simp [userConcat, auraConcat, String.append_assoc]

/-- C10: every committed turn text is the whitespace-trimmed concatenation of
that speaker fragments since the last boundary (starting from empty
accumulators, after any fragment list followed by turnComplete, the committed
turns carry exactly the trimmed per-speaker concatenations, each omitted when
it trims to empty), and an accumulator pair whose texts trim to the empty
string, whitespace-only included, commits no turn at turnComplete. -/
theorem committed_text_trimmed (fs ts : List (Speaker × String)) (u a : String)
    (hu : jsTrim u = "") (ha : jsTrim a = "") :
    (runMessages ⟨"", "", ts⟩ (fragsOf fs ++ [turnCompleteMsg])).turns =
      ts ++ (if jsTrim (userConcat fs) ≠ "" then
               [(Speaker.user, jsTrim (userConcat fs))] else [])
         ++ (if jsTrim (auraConcat fs) ≠ "" then
               [(Speaker.aura, jsTrim (auraConcat fs))] else []) ∧
    (stepMessage ⟨u, a, ts⟩ turnCompleteMsg).turns = ts := by
  constructor
  · have hrun : runMessages ⟨"", "", ts⟩ (fragsOf fs ++ [turnCompleteMsg]) =
        stepMessage (runMessages ⟨"", "", ts⟩ (fragsOf fs)) turnCompleteMsg := by
      simp [runMessages, List.foldl_append]
    rw [hrun, runMessages_fragsOf, empty_string_append, empty_string_append]
    simp only [stepMessage, turnCompleteMsg]
    split_ifs <;> simp [List.append_assoc]
  · simp [stepMessage, turnCompleteMsg, hu, ha]

/-- Witness for `committed_text_trimmed`: the fragment " x " commits as the
trimmed turn "x", and a turnComplete on whitespace-only accumulators commits
zero turns. -/
theorem committed_text_trimmed_witness :
    (runMessages ⟨"", "", []⟩ (fragsOf [(Speaker.user, " x ")] ++ [turnCompleteMsg])).turns
        = [(Speaker.user, "x")] ∧
    (stepMessage ⟨"  ", " ", []⟩ turnCompleteMsg).turns = [] := by
  have h := committed_text_trimmed [(Speaker.user, " x ")] [] "  " " " (by decide) (by decide)
  refine ⟨?_, h.2⟩
  rw [h.1]
  decide

/-! ## Float to PCM16 sample conversion (C9)

The capture path (lines 192-202) and the silent packet (lines 174-179)
assign `inputData[i] * 32768` into an Int16Array; JavaScript ToInt16
truncates toward zero and wraps modulo 2^16 into the signed range. The
playback path (line 42) divides the 16-bit sample by 32768.0. Scaling a
sample by the power of two 32768 and dividing a 16-bit integer by 32768.0
are exact in the floating-point formats involved, so rationals model the
arithmetic exactly. -/

/-- Truncation toward zero of a rational, as JavaScript number-to-integer
conversion performs it. -/
def truncQ (x : ℚ) : Int := if 0 ≤ x then ⌊x⌋ else ⌈x⌉

/-- Model of the JavaScript ToInt16 coercion done by assignment into an
Int16Array: truncate toward zero, then wrap modulo 2^16 into the signed
16-bit range. -/
def toInt16 (x : ℚ) : Int :=
  if truncQ x % 65536 < 32768 then truncQ x % 65536 else truncQ x % 65536 - 65536

/-- Spec name for the capture-side conversion: multiply by 32768 and
truncate (no clamping), as in `int16[i] = inputData[i] * 32768`. -/
def float_to_pcm (f : ℚ) : Int := toInt16 (f * 32768)

/-- Spec name for the playback-side conversion: divide the sample by 32768,
as in `channelData[i] = dataInt16[i] / 32768.0`. -/
def pcm_to_float (s : Int) : ℚ := (s : ℚ) / 32768

theorem truncQ_bounds (y : ℚ) (h1 : -32768 ≤ y) (h2 : y < 32768) :
    -32768 ≤ truncQ y ∧ truncQ y ≤ 32767 ∧ |(truncQ y : ℚ) - y| ≤ 1 := by
  unfold truncQ
  split_ifs with h0
  · have hfl : (⌊y⌋ : ℚ) ≤ y := Int.floor_le y
    have hfu : y < ⌊y⌋ + 1 := Int.lt_floor_add_one y
    have hlt : ⌊y⌋ < (32768 : Int) := by
      rw [Int.floor_lt]
      exact_mod_cast h2
    have hge : (0 : Int) ≤ ⌊y⌋ := Int.floor_nonneg.mpr h0
    refine ⟨by omega, by omega, ?_⟩
    rw [abs_le]
    constructor <;> linarith
  · have hcl : y ≤ (⌈y⌉ : ℚ) := Int.le_ceil y
    have hcu : (⌈y⌉ : ℚ) < y + 1 := Int.ceil_lt_add_one y
    have hle : ⌈y⌉ ≤ (0 : Int) := Int.ceil_le.mpr (by push_cast; linarith)
    have hge : (-32768 : Int) ≤ ⌈y⌉ := by
      have : (-32768 : ℚ) ≤ (⌈y⌉ : ℚ) := by linarith
      exact_mod_cast this
    refine ⟨hge, by omega, ?_⟩
    rw [abs_le]
    constructor <;> linarith

theorem float_to_pcm_in_range (f : ℚ) (h1 : -1 ≤ f) (h2 : f < 1) :
    float_to_pcm f = truncQ (f * 32768) := by
  have hb := truncQ_bounds (f * 32768) (by linarith) (by linarith)
  unfold float_to_pcm toInt16
  split_ifs with hlt <;> omega

theorem pcm_round_trip_pointwise (f : ℚ) (h1 : -1 ≤ f) (h2 : f < 1) :
    |pcm_to_float (float_to_pcm f) - f| ≤ 1 / 32768 := by
  have hb := truncQ_bounds (f * 32768) (by linarith) (by linarith)
  rw [float_to_pcm_in_range f h1 h2]
  have heq : pcm_to_float (truncQ (f * 32768)) - f =
      ((truncQ (f * 32768) : ℚ) - f * 32768) / 32768 := by
    unfold pcm_to_float
    field_simp
    ring
  rw [heq, abs_div, abs_of_pos (by norm_num : (0 : ℚ) < 32768)]
  have habs := hb.2.2
  rw [div_le_div_iff₀ (by norm_num) (by norm_num)]
  nlinarith [abs_nonneg ((truncQ (f * 32768) : ℚ) - f * 32768)]

/-- C9: for every float sample sequence with all values in [-1, 1), applying
float_to_pcm (multiply by 32768 and truncate, without clamping) and then
pcm_to_float (divide by 32768) yields a sequence that approximates the input
within one quantization step: each output value differs from its input by at
most 1/32768. -/
theorem pcm_quantization (l : List ℚ) (h : ∀ x ∈ l, -1 ≤ x ∧ x < 1) :
    List.Forall₂ (fun x y => |y - x| ≤ 1 / 32768) l
      (l.map (fun x => pcm_to_float (float_to_pcm x))) := by
  induction l with
  | nil => simp
  | cons x xs ih =>
      rw [List.map_cons]
      refine List.Forall₂.cons ?_ (ih fun z hz => h z (by simp [hz]))
      have hx := h x (by simp)
      exact pcm_round_trip_pointwise x hx.1 hx.2

/-- Witness for `pcm_quantization` at the concrete sample list
[0, 1/2, -1/2, 9/10]. -/
theorem pcm_quantization_witness :
    (∀ x ∈ [(0 : ℚ), 1/2, -1/2, 9/10], -1 ≤ x ∧ x < 1) ∧
    List.Forall₂ (fun x y => |y - x| ≤ 1 / 32768) [(0 : ℚ), 1/2, -1/2, 9/10]
      ([(0 : ℚ), 1/2, -1/2, 9/10].map (fun x => pcm_to_float (float_to_pcm x))) :=
  ⟨by norm_num, pcm_quantization [0, 1/2, -1/2, 9/10] (by norm_num)⟩

/-! ## Contextual seed (C8): ConversationalView.tsx lines 135-145, 166-186 -/

/-- Little-endian byte view of an Int16Array buffer, as `new
Uint8Array(int16.buffer)` exposes it: each sample contributes the low byte
then the high byte of its 16-bit two-complement representation. -/
def int16sToBytes : List Int → List Nat
  | [] => []
  | s :: rest =>
      (s % 65536).toNat % 256 :: (s % 65536).toNat / 256 :: int16sToBytes rest

/-- Data of the silent packet built in onopen (lines 173-183): 1024 zero
float samples, converted sample-wise exactly as the capture path converts
(multiply by 32768 into an Int16Array), viewed as bytes, transport
encoded. -/
def silentPacketData : List Char :=
  encode (int16sToBytes ((List.replicate 1024 (0 : ℚ)).map float_to_pcm))

/-- Packets sent inside onopen: exactly one silent packet when a contextual
entry is present, none otherwise (lines 170-186). -/
def onopenPackets (hasSeed : Bool) : List (List Char) :=
  if hasSeed then [silentPacketData] else []

/-- Initial transcript set by toggleConversation before connecting (lines
135-145): the seed text as a user turn when a contextual entry is present,
empty otherwise. -/
def startTranscript : Option String → List (Speaker × String)
  | some seedText => [(Speaker.user, seedText)]
  | none => []

theorem float_to_pcm_zero : float_to_pcm 0 = 0 := by
  unfold float_to_pcm toInt16 truncQ
  norm_num

theorem int16sToBytes_zeros :
    ∀ n, int16sToBytes (List.replicate n 0) = List.replicate (2 * n) 0
  | 0 => rfl
  | n + 1 => by
      rw [List.replicate_succ]
      simp only [int16sToBytes]
      rw [int16sToBytes_zeros n]
      rw [show 2 * (n + 1) = 2 * n + 1 + 1 by ring,
        List.replicate_succ, List.replicate_succ]
      norm_num

theorem stepMessage_true_turns (st : RecState) (o i : Option String) :
    (stepMessage st ⟨o, i, true⟩).turns =
      st.turns
        ++ (if jsTrim (st.inputAcc ++ i.getD "") ≠ "" then
              [(Speaker.user, jsTrim (st.inputAcc ++ i.getD ""))] else [])
        ++ (if jsTrim (st.outputAcc ++ o.getD "") ≠ "" then
              [(Speaker.aura, jsTrim (st.outputAcc ++ o.getD ""))] else []) := by
  cases o <;> cases i <;>
    (simp only [stepMessage, Option.getD_none, Option.getD_some, String.append_empty]
     split_ifs <;> simp [List.append_assoc])

theorem stepMessage_turns_extend (st : RecState) (m : ServerMessage) :
    ∃ d, (stepMessage st m).turns = st.turns ++ d := by
  obtain ⟨o, i, tc⟩ := m
  cases tc
  · exact ⟨[], by cases o <;> cases i <;> simp [stepMessage]⟩
  · refine ⟨(if jsTrim (st.inputAcc ++ i.getD "") ≠ "" then
        [(Speaker.user, jsTrim (st.inputAcc ++ i.getD ""))] else [])
      ++ (if jsTrim (st.outputAcc ++ o.getD "") ≠ "" then
        [(Speaker.aura, jsTrim (st.outputAcc ++ o.getD ""))] else []), ?_⟩
    rw [stepMessage_true_turns, List.append_assoc]

theorem runMessages_turns_extend (ms : List ServerMessage) :
    ∀ st : RecState, ∃ d, (runMessages st ms).turns = st.turns ++ d := by
  induction ms with
  | nil => exact fun st => ⟨[], by simp [runMessages]⟩
  | cons m ms ih =>
      intro st
      obtain ⟨d1, h1⟩ := stepMessage_turns_extend st m
      obtain ⟨d2, h2⟩ := ih (stepMessage st m)
      refine ⟨d1 ++ d2, ?_⟩
      simp only [runMessages, List.foldl_cons] at h2 ⊢
      rw [h2, h1, List.append_assoc]

/-- C8: when a contextual seed is supplied, the initial transcript is the
seed text as a user turn (set before connecting, without waiting for any
transcription event), onopen sends exactly one short silent audio frame
(the transport encoding of 2048 zero bytes, that is 1024 zero samples), and
after any sequence of server messages the seed turn is still the first
transcript turn, preceding every turn produced by transcript events. -/
theorem contextual_seed (seedText : String) (ms : List ServerMessage) :
    startTranscript (some seedText) = [(Speaker.user, seedText)] ∧
    onopenPackets true = [encode (List.replicate 2048 0)] ∧
    (onopenPackets true).length = 1 ∧
    (runMessages ⟨"", "", startTranscript (some seedText)⟩ ms).turns.head? =
      some (Speaker.user, seedText) := by
  refine ⟨rfl, ?_, rfl, ?_⟩
  · unfold onopenPackets silentPacketData
    rw [if_pos rfl, List.map_replicate, float_to_pcm_zero, int16sToBytes_zeros]
  · obtain ⟨d, hd⟩ := runMessages_turns_extend ms ⟨"", "", startTranscript (some seedText)⟩
    rw [hd]
    rfl

/-! ## Session lifecycle and onmessage effects (C5, C6, C7)

The component state (React state plus refs) is modelled as one record; each
ref that the code only tests for null is a Bool recording non-nullness. -/

inductive Status
  | idle
  | connecting
  | listening
  | speaking
  | error
  deriving DecidableEq

structure OrchState where
  isSessionActive : Bool
  status : Status
  sessionRef : Bool
  mediaStreamRef : Bool
  audioContextRef : Bool
  scriptProcessorRef : Bool
  outputCtxRef : Bool
  inputAcc : String
  outputAcc : String
  transcript : List (Speaker × String)
  savedHistory : List (List (Speaker × String))
  nextStartTime : ℚ
  audioSources : Nat
  deriving DecidableEq

/-- Source function cleanup (lines 84-99): closes and nulls the session,
media stream, input audio context and script processor refs. It does not
touch outputAudioContextRef, nextStartTimeRef or audioSourcesRef. -/
def cleanup (st : OrchState) : OrchState :=
  { st with sessionRef := false, mediaStreamRef := false,
            audioContextRef := false, scriptProcessorRef := false }

/-- Source function handleEndConversation (lines 78-82): saves a non-empty
transcript to the conversation history. -/
def handleEndConversation (st : OrchState) : OrchState :=
  if st.transcript ≠ [] then
    { st with savedHistory := st.savedHistory ++ [st.transcript] }
  else st

inductive StartError
  | alreadyActive
  deriving DecidableEq

/-- Model of toggleConversation (lines 122-289). The active branch is the
stop path exactly as written: save history, cleanup, deactivate, idle. The
inactive branch is the start path collapsed to its successful completion:
transcript reset to the seeded initial transcript, resources acquired,
session opened, ending active and listening. The result carries an error
component of the spec taxonomy so the AlreadyActive behavior the spec
claims can be compared against the code; the code has no AlreadyActive
path, so the error component is always none. -/
def toggleConversation (st : OrchState) (seed : Option String) :
    OrchState × Option StartError :=
  if st.isSessionActive then
    ({ cleanup (handleEndConversation st) with
        isSessionActive := false, status := Status.idle }, none)
  else
    ({ st with status := Status.listening,
               transcript := startTranscript seed,
               mediaStreamRef := true, outputCtxRef := true,
               sessionRef := true, audioContextRef := true,
               scriptProcessorRef := true, isSessionActive := true }, none)

/-- Concrete state of a running session, used by the concrete theorems. -/
def activeState : OrchState :=
  { isSessionActive := true, status := Status.listening, sessionRef := true,
    mediaStreamRef := true, audioContextRef := true, scriptProcessorRef := true,
    outputCtxRef := true, inputAcc := "", outputAcc := "",
    transcript := [(Speaker.user, "hello")], savedHistory := [],
    nextStartTime := 0, audioSources := 0 }

inductive DecodeError
  | decodeError
  deriving DecidableEq

/-- Signed 16-bit sample read from a little-endian byte pair, as the
Int16Array view exposes it. -/
def bytesToInt16 (lo hi : Nat) : Int :=
  if lo + 256 * hi < 32768 then (lo + 256 * hi : Int)
  else (lo + 256 * hi : Int) - 65536

/-- Little-endian byte list viewed as an Int16Array. -/
def toInt16List : List Nat → List Int
  | lo :: hi :: rest => bytesToInt16 lo hi :: toInt16List rest
  | _ => []

/-- Source function decodeAudioData (lines 29-46): constructs an Int16Array
view of the byte buffer, which throws a RangeError when the byte length is
not a whole multiple of 2 (the spec taxonomy calls this failure
DecodeError); otherwise splits frames into channels and divides each sample
by 32768. -/
def decodeAudioData (data : List Nat) (numChannels : Nat) :
    Except DecodeError (List (List ℚ)) :=
  if data.length % 2 ≠ 0 then Except.error DecodeError.decodeError
  else
    let dataInt16 := toInt16List data
    let frameCount := dataInt16.length / numChannels
    Except.ok ((List.range numChannels).map fun channel =>
      (List.range frameCount).map fun i =>
        ((dataInt16.getD (i * numChannels + channel) 0 : Int) : ℚ) / 32768)

/-- Audio branch of onmessage (lines 239-263) as a state transition: set
status speaking; when the output context ref is non-null, decode; a decode
failure rejects the handler after the await, so nothing further runs for
that chunk; a successful decode performs the scheduling step (cursor
read-modify-write, source start, source-set insert) with the buffer
duration frameCount / 24000. -/
def processAudioChunk (st : OrchState) (data : List Nat) (now : ℚ) :
    OrchState :=
  let st1 := { st with status := Status.speaking }
  if st1.outputCtxRef then
    match decodeAudioData data 1 with
    | Except.error _ => st1
    | Except.ok channels =>
        let frameCount := (channels.getD 0 []).length
        let dur : ℚ := frameCount / 24000
        let start := max st1.nextStartTime now
        { st1 with nextStartTime := start + dur,
                   audioSources := st1.audioSources + 1 }
  else st1

/-- Capture callback onaudioprocess (lines 192-208): converts the float
frame exactly as float_to_pcm, builds the encoded blob, and sends it only
when sessionPromiseRef is non-null; it mutates no component state. The
result is the sent blob data, when any. -/
def onaudioprocessSend (st : OrchState) (frame : List ℚ) :
    Option (List Char) :=
  if st.sessionRef then some (encode (int16sToBytes (frame.map float_to_pcm)))
  else none

/-- Transcript branch of onmessage (lines 214-237) lifted to the session
state; a turnComplete also sets status listening (line 236). -/
def processTranscript (st : OrchState) (m : ServerMessage) : OrchState :=
  let r := stepMessage ⟨st.inputAcc, st.outputAcc, st.transcript⟩ m
  { st with inputAcc := r.inputAcc, outputAcc := r.outputAcc,
            transcript := r.turns,
            status := if m.turnComplete then Status.listening else st.status }

/-- C5 counterexample: in the concrete running session `activeState`, a
second call of toggleConversation does not fail with AlreadyActive and does
not leave the first session unaffected: it returns no error and deactivates
the session. -/
theorem start_twice_claim_false :
    (toggleConversation activeState none).2 = none ∧
    (toggleConversation activeState none).1.isSessionActive = false ∧
    (toggleConversation activeState none).1 ≠ activeState ∧
    toggleConversation activeState none ≠
      (activeState, some StartError.alreadyActive) := by
  decide

/-- C5 amended: calling toggleConversation again while a session is active
acts as stop, not as a rejected start: it returns no error (AlreadyActive is
never produced), ends the session (inactive, idle), clears the session,
stream, input-context and script-processor refs, and saves a non-empty
transcript to history. -/
theorem toggle_while_active_stops (st : OrchState) (seed : Option String)
    (h : st.isSessionActive = true) :
    (toggleConversation st seed).2 = none ∧
    (toggleConversation st seed).1.isSessionActive = false ∧
    (toggleConversation st seed).1.status = Status.idle ∧
    (toggleConversation st seed).1.sessionRef = false ∧
    (toggleConversation st seed).1.mediaStreamRef = false ∧
    (toggleConversation st seed).1.audioContextRef = false ∧
    (toggleConversation st seed).1.scriptProcessorRef = false ∧
    (toggleConversation st seed).1.savedHistory =
      (if st.transcript ≠ [] then st.savedHistory ++ [st.transcript]
       else st.savedHistory) := by
  simp only [toggleConversation, h, if_true]
  unfold cleanup handleEndConversation
  split_ifs <;> simp_all

/-- Witness for `toggle_while_active_stops` at the concrete running
session. -/
theorem toggle_while_active_stops_witness :
    activeState.isSessionActive = true ∧
    ((toggleConversation activeState none).2 = none ∧
     (toggleConversation activeState none).1.isSessionActive = false ∧
     (toggleConversation activeState none).1.status = Status.idle ∧
     (toggleConversation activeState none).1.sessionRef = false ∧
     (toggleConversation activeState none).1.mediaStreamRef = false ∧
     (toggleConversation activeState none).1.audioContextRef = false ∧
     (toggleConversation activeState none).1.scriptProcessorRef = false ∧
     (toggleConversation activeState none).1.savedHistory =
       (if activeState.transcript ≠ [] then
          activeState.savedHistory ++ [activeState.transcript]
        else activeState.savedHistory)) :=
  ⟨rfl, toggle_while_active_stops activeState none rfl⟩

/-- C6: decoding a wire blob whose byte length is not a whole multiple of
the 2-byte sample width fails with DecodeError, and processing such a
malformed chunk in any session state leaves the session running and the
scheduler state unchanged except for the skipped chunk: the cursor, the
source set, the activity flags and the transcript are untouched (only the
status was set to speaking, which happens before the decode). -/
theorem malformed_chunk_skipped (st : OrchState) (data : List Nat) (now : ℚ)
    (h : data.length % 2 ≠ 0) :
    decodeAudioData data 1 = Except.error DecodeError.decodeError ∧
    (processAudioChunk st data now).nextStartTime = st.nextStartTime ∧
    (processAudioChunk st data now).audioSources = st.audioSources ∧
    (processAudioChunk st data now).isSessionActive = st.isSessionActive ∧
    (processAudioChunk st data now).sessionRef = st.sessionRef ∧
    (processAudioChunk st data now).transcript = st.transcript ∧
    (processAudioChunk st data now).status = Status.speaking := by
  have hd : decodeAudioData data 1 = Except.error DecodeError.decodeError := by
    simp [decodeAudioData, h]
  refine ⟨hd, ?_, ?_, ?_, ?_, ?_, ?_⟩ <;> simp [processAudioChunk, hd]

/-- Witness for `malformed_chunk_skipped` at the three-byte chunk
[0, 1, 2]. -/
theorem malformed_chunk_skipped_witness :
    (([0, 1, 2] : List Nat).length % 2 ≠ 0) ∧
    decodeAudioData [0, 1, 2] 1 = Except.error DecodeError.decodeError ∧
    (processAudioChunk activeState [0, 1, 2] 5).nextStartTime =
      activeState.nextStartTime := by
  have h : (([0, 1, 2] : List Nat).length % 2 ≠ 0) := by decide
  have hm := malformed_chunk_skipped activeState [0, 1, 2] 5 h
  exact ⟨h, hm.1, hm.2.1⟩

/-- State left by the stop path of toggleConversation from the concrete
running session. -/
def stoppedState : OrchState := (toggleConversation activeState none).1

theorem stoppedState_eq :
    stoppedState =
      { isSessionActive := false, status := Status.idle, sessionRef := false,
        mediaStreamRef := false, audioContextRef := false,
        scriptProcessorRef := false, outputCtxRef := true, inputAcc := "",
        outputAcc := "", transcript := [(Speaker.user, "hello")],
        savedHistory := [[(Speaker.user, "hello")]], nextStartTime := 0,
        audioSources := 0 } := by
  decide

/-- C7 counterexample: after stop, not every in-flight arrival is ignored.
A capture frame is indeed ignored (the send is guarded by the nulled session
ref), but an audio chunk arriving after the teardown still mutates the
scheduler state (the playback cursor moves), and a transcript event still
mutates the component state, because cleanup leaves outputAudioContextRef
set and detaches no onmessage callback. -/
theorem post_stop_arrival_mutates :
    onaudioprocessSend stoppedState [0] = none ∧
    (processAudioChunk stoppedState [0, 0] 1).nextStartTime ≠
      stoppedState.nextStartTime ∧
    processTranscript stoppedState (userFrag "hi") ≠ stoppedState := by
  refine ⟨by decide, ?_, by decide⟩
  rw [stoppedState_eq]
  have hde : decodeAudioData [0, 0] 1 =
      Except.ok [[((0 : Int) : ℚ) / 32768]] := rfl
  simp [processAudioChunk, hde]
  norm_num

/-- C7 amended: the teardown discards the session, stream, input-context
and script-processor references, so a post-stop capture frame is ignored
for every state; but the output context reference survives cleanup (and the
counterexample shows post-stop chunk and transcript arrivals still mutate
state). -/
theorem post_stop_capture_ignored (st : OrchState) (frame : List ℚ) :
    onaudioprocessSend (cleanup st) frame = none ∧
    (cleanup st).sessionRef = false ∧
    (cleanup st).mediaStreamRef = false ∧
    (cleanup st).audioContextRef = false ∧
    (cleanup st).scriptProcessorRef = false ∧
    (cleanup st).outputCtxRef = st.outputCtxRef := by
  simp [onaudioprocessSend, cleanup]

end AIJournal
